import Mathlib

/-!
Verification of `pkg/file/tarutil.go`: TAR iteration, single-entry lookup
(content and metadata), and safe extraction to a destination directory.

Modelling conventions:
* A decoded TAR stream is a list of pull results (`TarItem`): a well-formed
  entry (header plus payload bytes), a nil-header pull (a decoder quirk the
  code guards against), or a decode failure.  The end of the list is EOF.
* Go closures over mutable locals become explicit state threading: a visitor
  has type `σ → TarFileEntry → σ × Option GoErr`, and `IterateTar` returns
  the final captured state next to the error, which is the observable the
  closures produce.
* Readers are modelled by their observable data: an entry reader by the byte
  list it serves, the raw input stream by a numeric closer identity, so that
  "which reader was passed" and "whose close is called" are statable.
* Machine integers (`int64`) are `Int`; byte values are `Nat`; the type flag
  is the `Char` the `archive/tar` constants denote.
-/

/-- Type flag byte for a regular file (`tar.TypeReg`). -/
def tarTypeReg : Char := '0'

/-- Type flag byte for a hard link (`tar.TypeLink`). -/
def tarTypeLink : Char := '1'

/-- Type flag byte for a symbolic link (`tar.TypeSymlink`). -/
def tarTypeSymlink : Char := '2'

/-- Type flag byte for a directory (`tar.TypeDir`). -/
def tarTypeDir : Char := '5'

/-- The fields of `tar.Header` that `tarutil.go` reads: logical name, type
flag, declared size, and permission mode.  Other header fields are never
consulted by this code. -/
structure TarHeader where
  name : String
  typeflag : Char
  size : Int
  mode : Int
deriving DecidableEq, Repr

/-- `TarFileEntry`: the header, contents, and list position of an entry
within a tar file.  The Go `Reader` field (positioned at this entry's
payload) is modelled by the payload bytes it serves. -/
structure TarFileEntry where
  sequence : Int
  header : TarHeader
  content : List Nat
deriving DecidableEq, Repr

/-- The error universe of this code.  `copyErr` and `visitWrap` are the two
`fmt.Errorf("... %w", err)` wrappers, so `errors.Is` looks through them. -/
inductive GoErr : Type where
  /-- `ErrTarStopIteration`, the sentinel halting iteration successfully. -/
  | tarStopIteration : GoErr
  /-- "potential path traversal attack with entry: %q". -/
  | pathTraversal (name : String) : GoErr
  /-- "zip read limit hit (potential decompression bomb attack): %v > %v." -/
  | readLimit (numBytes limit : Int) : GoErr
  /-- "unable to copy file: %w". -/
  | copyErr (inner : GoErr) : GoErr
  /-- "failed to visit tar entry=%q : %w". -/
  | visitWrap (entryName : String) (inner : GoErr) : GoErr
  /-- `ErrFileNotFound{Path}`. -/
  | fileNotFound (path : String) : GoErr
  /-- opening a path that holds a directory for writing fails. -/
  | isDir (path : String) : GoErr
  /-- any other error value a visitor may return (indexed arbitrarily). -/
  | other (code : Nat) : GoErr
deriving DecidableEq, Repr

/-- `errors.Is e target` over `GoErr`: equality, unwrapping the `%w`
wrappers `copyErr` and `visitWrap`. -/
def errIs : GoErr → GoErr → Bool
  | e, target =>
    if e = target then true
    else
      match e with
      | .copyErr inner => errIs inner target
      | .visitWrap _ inner => errIs inner target
      | _ => false

/-- One pull from the sequential decoder (`tar.Reader.Next` plus the entry
payload): a header (possibly nil, which the loop skips) with its payload
bytes, or a decode error. -/
inductive TarItem : Type where
  | entry (hdr : Option TarHeader) (content : List Nat) : TarItem
  | fail (e : GoErr) : TarItem
deriving DecidableEq, Repr

/-- A pull that is not a decode error. -/
def TarItem.isDecodeOk : TarItem → Bool
  | .fail _ => false
  | _ => true

/-- A pull that is a well-formed entry whose logical name is `path`. -/
def TarItem.nameIs (path : String) : TarItem → Bool
  | .entry (some h) _ => h.name = path
  | _ => false

/-- The loop of `IterateTar`, at the pull whose sequence number is `seq`
with visitor state `s`.  Mirrors the Go loop: EOF breaks with success, a
decode error is returned unwrapped, a nil header is skipped (the sequence
counter still advances), otherwise the visitor runs and its result is
dispatched on the `ErrTarStopIteration` sentinel. -/
def iterateTarAux {σ : Type} (visitor : σ → TarFileEntry → σ × Option GoErr) :
    Int → σ → List TarItem → σ × Option GoErr
  | _, s, [] => (s, none)
  | _, s, .fail e :: _ => (s, some e)
  | seq, s, .entry none _ :: rest => iterateTarAux visitor (seq + 1) s rest
  | seq, s, .entry (some hdr) content :: rest =>
    match visitor s ⟨seq, hdr, content⟩ with
    | (s', none) => iterateTarAux visitor (seq + 1) s' rest
    | (s', some err) =>
      if errIs err .tarStopIteration then (s', none)
      else (s', some (.visitWrap hdr.name err))

/-- `IterateTar`: reads across a tar and invokes a visitor function for each
entry discovered.  The sequence counter starts at `-1` and is incremented
before each pull, so the first entry is numbered 0.  The visitor's captured
state is threaded explicitly and returned next to the error. -/
def IterateTar {σ : Type} (items : List TarItem)
    (visitor : σ → TarFileEntry → σ × Option GoErr) (init : σ) : σ × Option GoErr :=
  iterateTarAux visitor 0 init items

/-- A stream of well-formed entries, as handed to `IterateTar`. -/
def mkItems (es : List (TarHeader × List Nat)) : List TarItem :=
  es.map fun e => .entry (some e.1) e.2

/-- The entries a visitor is handed for a well-formed stream, numbering them
from `seq` in stream order. -/
def seqEntries (seq : Int) : List (TarHeader × List Nat) → List TarFileEntry
  | [] => []
  | (h, c) :: rest => ⟨seq, h, c⟩ :: seqEntries (seq + 1) rest

/-- The raw input stream handed to the lookups: its decoded pulls, plus the
identity of its `Close` method (so composing closers is observable). -/
structure TarStream where
  items : List TarItem
  closerId : Nat
deriving DecidableEq, Repr

/-- `tarFile`: the ReadCloser composed on a lookup match, embedding the tar
reader positioned at the entry (its remaining payload bytes) and the
original stream's closer.  Closing it invokes closer `closer`. -/
structure tarFile where
  reader : List Nat
  closer : Nat
deriving DecidableEq, Repr

/-- `ReaderFromTar`: returns an `io.ReadCloser` for the path within a tar
file.  The visitor closure's captured `result` variable is the threaded
state; on a name match it stores the composed `tarFile` and returns the
stop sentinel. -/
def ReaderFromTar (stream : TarStream) (tarPath : String) : Except GoErr tarFile :=
  match IterateTar stream.items
      (fun (result : Option tarFile) entry =>
        if entry.header.name = tarPath then
          (some ⟨entry.content, stream.closerId⟩, some .tarStopIteration)
        else (result, none))
      none with
  | (_, some err) => .error err
  | (some r, none) => .ok r
  | (none, none) => .error (.fileNotFound tarPath)

/-- Which reader object `MetadataFromTar` hands to the metadata constructor:
the raw stream argument itself, or a tar reader positioned at an entry. -/
inductive ContentSrc : Type where
  | originalStream (closerId : Nat) : ContentSrc
  | entryReader (content : List Nat) : ContentSrc
deriving DecidableEq, Repr

/-- The `Metadata` record, reduced to what this code determines: the header
it was built from and the optional content reader passed to the
constructor.  Its full field set lives in `pkg/file/metadata.go`, outside
the code under study. -/
structure Metadata where
  header : TarHeader
  contents : Option ContentSrc
deriving DecidableEq, Repr

/-- Modelled from the spec: the external metadata constructor
`build_metadata(header, optional_content_reader)` (Go `NewMetadata`, in
`pkg/file/metadata.go`, not under study); it records its two arguments. -/
def NewMetadata (h : TarHeader) (c : Option ContentSrc) : Metadata := ⟨h, c⟩

/-- `MetadataFromTar`: returns the tar metadata from the header info.  On a
name match the closure builds `NewMetadata` from the header, passing the
raw stream argument as content reader exactly when the declared size is
positive, and returns the stop sentinel. -/
def MetadataFromTar (stream : TarStream) (tarPath : String) : Except GoErr Metadata :=
  match IterateTar stream.items
      (fun (metadata : Option Metadata) entry =>
        if entry.header.name = tarPath then
          (some (NewMetadata entry.header
            (if entry.header.size > 0 then some (.originalStream stream.closerId) else none)),
           some .tarStopIteration)
        else (metadata, none))
      none with
  | (_, some err) => .error err
  | (some m, none) => .ok m
  | (none, none) => .error (.fileNotFound tarPath)

/-- `os.PathSeparator` on the unix platforms this code targets. -/
def osPathSeparator : Char := '/'

/-- Go `strings.HasPrefix s pre`: the bytes of `pre` lead the bytes of `s`.
On valid UTF-8 encodings this coincides with the character lists being in
the sublist relation at the front. -/
def goStrHasPre (s pre : String) : Bool :=
  pre.toList.isPrefixOf s.toList

/-- The `..` backtracking step of Go `path/filepath.Clean`'s lazy buffer:
with the kept output held reversed and `last` the character most recently
dropped, keep dropping while the kept length exceeds the `dotdot` boundary
and the dropped character is not a separator. -/
def popElemAux (dotdot : Nat) (last : Char) : List Char → List Char
  | [] => []
  | c :: rest =>
    if dotdot < (c :: rest).length ∧ last ≠ '/' then popElemAux dotdot c rest
    else c :: rest

/-- Drop the final path element of the reversed output buffer, together
with its preceding separator, stopping at the `dotdot` boundary (Go
`Clean`, the `out.w > dotdot` arm of the `..` case). -/
def popElem (dotdot : Nat) : List Char → List Char
  | [] => []
  | c :: rest => popElemAux dotdot c rest

/-- Prepend the separator that Go `Clean` appends before a copied element:
when rooted the output must be longer than the leading slash, otherwise
nonempty. -/
def sepOut (rooted : Bool) (out : List Char) : List Char :=
  if (rooted ∧ out.length ≠ 1) ∨ (¬ rooted ∧ out.length ≠ 0) then '/' :: out else out

/-- The main loop of Go `path/filepath.Clean` (unix separators), one input
character per step, with the output buffer held in reverse.  `inElem` set
means the default case's inner copy loop is running (copy characters until
a separator).  At an element boundary: skip separators, drop `.` elements,
resolve `..` elements against the buffer (or emit them when not rooted),
and start copying any other element after its separator. -/
def cleanLoop (rooted : Bool) : Bool → List Char → Nat → List Char → List Char
  | _, out, _, [] => out
  | true, out, dotdot, c :: rest =>
    if c = '/' then cleanLoop rooted false out dotdot rest
    else cleanLoop rooted true (c :: out) dotdot rest
  | false, out, dotdot, '/' :: rest => cleanLoop rooted false out dotdot rest
  | false, out, _, ['.'] => out
  | false, out, dotdot, '.' :: '/' :: rest => cleanLoop rooted false out dotdot rest
  | false, out, dotdot, '.' :: '.' :: rest =>
    if rest = [] ∨ rest.head? = some '/' then
      if dotdot < out.length then
        cleanLoop rooted false (popElem dotdot out) dotdot rest
      else if ¬ rooted then
        let out' := if out.length ≠ 0 then '.' :: '.' :: '/' :: out else ['.', '.']
        cleanLoop rooted false out' out'.length rest
      else
        cleanLoop rooted false out dotdot rest
    else
      cleanLoop rooted true ('.' :: '.' :: sepOut rooted out) dotdot rest
  | false, out, dotdot, c :: rest =>
    cleanLoop rooted true (c :: sepOut rooted out) dotdot rest

/-- Go `path/filepath.Clean` for unix paths: empty cleans to `.`, a rooted
path keeps its leading separator (with the `dotdot` floor behind it), and
an empty result is `.`. -/
def goClean (path : String) : String :=
  if path = "" then "."
  else
    let cs := path.toList
    if cs.head? = some '/' then
      let out := cleanLoop true false ['/'] 1 cs
      if out.length = 0 then "." else String.mk out.reverse
    else
      let out := cleanLoop false false [] 0 cs
      if out.length = 0 then "." else String.mk out.reverse

/-- Go `path/filepath.Join` restricted to the two elements this code joins:
empty elements are skipped and the separator-joined rest is cleaned. -/
def goJoin (a b : String) : String :=
  if a = "" ∧ b = "" then ""
  else if a = "" then goClean b
  else goClean (a ++ "/" ++ b)

example : goJoin "/out" "../escape" = "/escape" := by decide
example : goJoin "/out" "." = "/out" := by decide
example : goJoin "/out" "a/b.txt" = "/out/a/b.txt" := by decide
example : goJoin "/out" "/etc/passwd" = "/out/etc/passwd" := by decide
example : goClean "a/b/.." = "a" := by decide
example : goClean "../a" = "../a" := by decide
example : goClean "/.." = "/" := by decide
example : goClean "a/.." = "." := by decide

/-- A node of the destination filesystem: a directory, or a regular file
with its bytes and the mode it was created with.  (`MkdirAll`'s 0755 mode
and directory timestamps are not tracked; no property here reads them.) -/
inductive FsNode : Type where
  | dir : FsNode
  | file (content : List Nat) (mode : Int) : FsNode
deriving DecidableEq, Repr

/-- The destination filesystem (the `afero.Fs` capability): an association
list from path to node, newest binding first. -/
abbrev Fs := List (String × FsNode)

/-- Look up the node at a path (newest binding wins). -/
def fsLookup : Fs → String → Option FsNode
  | [], _ => none
  | (q, n) :: fs, p => if p = q then some n else fsLookup fs p

/-- The bounded copy-and-check of the regular-file arm: `io.Copy` from
`io.LimitReader(entry.Reader, perFileReadLimit)` into the open file writes
`min(len, limit)` bytes over the existing bytes (the file was opened
without truncation), and the copied count is then compared against the
limit.  `io.Copy` swallows the reader's end-of-stream, so the modelled copy
itself never errors; the `errors.Is(err, io.EOF)` disjunct and the
`copyErr` wrap are reachable only through mid-entry read failures, which
the decoded-stream model does not produce. -/
def tarVisitorCopy (limit : Int) (fs : Fs) (target : String)
    (content old : List Nat) (mode : Int) : Fs × Option GoErr :=
  let copied := content.take limit.toNat
  let numBytes : Int := copied.length
  let fs1 : Fs := (target, .file (copied ++ old.drop copied.length) mode) :: fs
  if numBytes ≥ limit then (fs1, some (.readLimit numBytes limit))
  else (fs1, none)

/-- `tarVisitor`: the extraction policy's configuration — the destination
root.  (The `fs` field is the threaded filesystem state; the process-wide
`perFileReadLimit` global is threaded as an explicit argument of
`visit`.) -/
structure tarVisitor where
  destination : String
deriving DecidableEq, Repr

/-- `tarVisitor.visit`: per entry, join the destination with the entry
name, reject the result unless it stays under the destination root or the
name is exactly `.`, then dispatch on the type flag: links are skipped,
directories are created when absent (`.` is a no-op), regular files are
opened (created empty when absent, a directory in the way fails) and
written through the bounded copy, anything else is ignored. -/
def tarVisitor.visit (v : tarVisitor) (perFileReadLimit : Int) (fs : Fs)
    (entry : TarFileEntry) : Fs × Option GoErr :=
  let target := goJoin v.destination entry.header.name
  let withinDir := v.destination ++ osPathSeparator.toString
  if ¬ goStrHasPre target withinDir ∧ entry.header.name ≠ "." then
    (fs, some (.pathTraversal entry.header.name))
  else if entry.header.typeflag = tarTypeSymlink ∨ entry.header.typeflag = tarTypeLink then
    (fs, none)
  else if entry.header.typeflag = tarTypeDir then
    if entry.header.name = "." then (fs, none)
    else if (fsLookup fs target).isSome then (fs, none)
    else ((target, .dir) :: fs, none)
  else if entry.header.typeflag = tarTypeReg then
    match fsLookup fs target with
    | some .dir => (fs, some (.isDir target))
    | some (.file old m) => tarVisitorCopy perFileReadLimit fs target entry.content old m
    | none =>
      tarVisitorCopy perFileReadLimit ((target, .file [] entry.header.mode) :: fs) target
        entry.content [] entry.header.mode
  else (fs, none)

/-- `UntarToDirectory`: writes the contents of the given tar reader to the
given destination by iterating `tarVisitor.visit` over the stream, the
filesystem as the threaded state. -/
def UntarToDirectory (items : List TarItem) (dst : String) (perFileReadLimit : Int)
    (fs : Fs) : Fs × Option GoErr :=
  IterateTar items (fun fs e => tarVisitor.visit ⟨dst⟩ perFileReadLimit fs e) fs

/-! ### Iteration lemmas -/

theorem iterateTarAux_always_continue {σ : Type} (f : σ → TarFileEntry → σ)
    (es : List (TarHeader × List Nat)) (seq : Int) (s : σ) :
    iterateTarAux (fun s e => (f s e, none)) seq s (mkItems es)
      = ((seqEntries seq es).foldl f s, none) := by
  induction es generalizing seq s with
  | nil => simp [mkItems, iterateTarAux, seqEntries]
  | cons e es ih =>
    obtain ⟨h, c⟩ := e
    simp [mkItems, iterateTarAux, seqEntries, ih] at ih ⊢
    exact ih seq.succ (f s ⟨seq, h, c⟩)

theorem seqEntries_map_sequence (es : List (TarHeader × List Nat)) (seq : Int) :
    (seqEntries seq es).map TarFileEntry.sequence
      = (List.range es.length).map (fun i : Nat => seq + (i : Int)) := by
  induction es generalizing seq with
  | nil => simp [seqEntries]
  | cons e es ih =>
    obtain ⟨h, c⟩ := e
    rw [seqEntries, List.map_cons, ih, List.length_cons, List.range_succ_eq_map,
      List.map_cons, List.map_map]
    refine congrArg₂ _ (by simp) (List.map_congr_left ?_)
    intro a _
    simp only [Function.comp_apply]
    push_cast
    ring

theorem seqEntries_map_payload (es : List (TarHeader × List Nat)) (seq : Int) :
    (seqEntries seq es).map (fun e => (e.header, e.content)) = es := by
  induction es generalizing seq with
  | nil => simp [seqEntries]
  | cons e es ih =>
    obtain ⟨h, c⟩ := e
    simp [seqEntries, ih]

/-- Claim C3: for a stream of `N` well-formed entries and any visitor that
always continues (an arbitrary state update `f` with a `nil` error),
`IterateTar` folds `f` over exactly the entries of the stream, in stream
order, with sequence numbers `0, 1, ..., N-1`, and returns success. -/
theorem iterateTar_visits_all {σ : Type} (f : σ → TarFileEntry → σ) (init : σ)
    (es : List (TarHeader × List Nat)) :
    IterateTar (mkItems es) (fun s e => (f s e, none)) init
        = ((seqEntries 0 es).foldl f init, none)
    ∧ (seqEntries 0 es).map TarFileEntry.sequence
        = (List.range es.length).map (fun i : Nat => (i : Int))
    ∧ (seqEntries 0 es).map (fun e => (e.header, e.content)) = es := by
  refine ⟨iterateTarAux_always_continue f es 0 init, ?_, seqEntries_map_payload es 0⟩
  simpa using seqEntries_map_sequence es 0

/-- Claim C6: when the visitor at the current entry returns a non-nil
error, iteration stops at that entry (the tail of the stream is not
consulted): if `errors.Is` classifies the error as the stop sentinel the
result is success, otherwise the result wraps the entry's logical name
around the visitor's error. -/
theorem iterateTar_visitor_outcome {σ : Type} (visitor : σ → TarFileEntry → σ × Option GoErr)
    (seq : Int) (s s' : σ) (hdr : TarHeader) (content : List Nat) (rest : List TarItem)
    (e : GoErr) (h : visitor s ⟨seq, hdr, content⟩ = (s', some e)) :
    (errIs e .tarStopIteration = true →
      iterateTarAux visitor seq s (.entry (some hdr) content :: rest) = (s', none))
    ∧ (errIs e .tarStopIteration = false →
      iterateTarAux visitor seq s (.entry (some hdr) content :: rest)
        = (s', some (.visitWrap hdr.name e))) := by
  constructor <;> intro hstop <;> simp [iterateTarAux, h, hstop]


/-! ### Lookup lemmas -/

theorem iterateTarAux_lookup_skip {γ : Type} (mk : TarFileEntry → γ) (path : String)
    (pre rest : List TarItem) (seq : Int) (st : Option γ)
    (hok : pre.all TarItem.isDecodeOk = true)
    (hmiss : pre.all (fun i => !(TarItem.nameIs path i)) = true) :
    iterateTarAux
        (fun (r : Option γ) entry =>
          if entry.header.name = path then (some (mk entry), some .tarStopIteration)
          else (r, none))
        seq st (pre ++ rest)
      = iterateTarAux
          (fun (r : Option γ) entry =>
            if entry.header.name = path then (some (mk entry), some .tarStopIteration)
            else (r, none))
          (seq + pre.length) st rest := by
  induction pre generalizing seq with
  | nil => simp
  | cons i pre ih =>
    simp only [List.all_cons, Bool.and_eq_true] at hok hmiss
    cases i with
    | fail e => simp [TarItem.isDecodeOk] at hok
    | entry hdr c =>
      cases hdr with
      | none =>
        rw [List.cons_append, iterateTarAux, ih (seq + 1) hok.2 hmiss.2]
        congr 1
        simp only [List.length_cons]
        push_cast
        ring
      | some h =>
        have hne : h.name ≠ path := by
          simpa [TarItem.nameIs] using hmiss.1
        rw [List.cons_append, iterateTarAux]
        simp only [if_neg hne]
        rw [ih (seq + 1) hok.2 hmiss.2]
        congr 1
        simp only [List.length_cons]
        push_cast
        ring

theorem readerFromTar_found (pre post : List TarItem) (cid : Nat) (path : String)
    (hdr : TarHeader) (content : List Nat)
    (hok : pre.all TarItem.isDecodeOk = true)
    (hmiss : pre.all (fun i => !(TarItem.nameIs path i)) = true)
    (hname : hdr.name = path) :
    ReaderFromTar ⟨pre ++ .entry (some hdr) content :: post, cid⟩ path
      = .ok ⟨content, cid⟩ := by
  rw [ReaderFromTar, IterateTar]
  rw [iterateTarAux_lookup_skip (fun entry => (⟨entry.content, cid⟩ : tarFile)) path pre
    (.entry (some hdr) content :: post) 0 none hok hmiss]
  rw [iterateTarAux]
  simp [hname, errIs]

theorem metadataFromTar_found (pre post : List TarItem) (cid : Nat) (path : String)
    (hdr : TarHeader) (content : List Nat)
    (hok : pre.all TarItem.isDecodeOk = true)
    (hmiss : pre.all (fun i => !(TarItem.nameIs path i)) = true)
    (hname : hdr.name = path) :
    MetadataFromTar ⟨pre ++ .entry (some hdr) content :: post, cid⟩ path
      = .ok (NewMetadata hdr
          (if hdr.size > 0 then some (.originalStream cid) else none)) := by
  rw [MetadataFromTar, IterateTar]
  rw [iterateTarAux_lookup_skip
    (fun entry => NewMetadata entry.header
      (if entry.header.size > 0 then some (.originalStream cid) else none))
    path pre (.entry (some hdr) content :: post) 0 none hok hmiss]
  rw [iterateTarAux]
  simp [hname, errIs]

/-- Claim C5: when every pull of the stream decodes and no well-formed
entry's logical name equals the requested path, both lookups run the
iteration to the end of the stream (the skipped lookup visitor never stops
or errors, so only exhausting the stream returns) and then report a
not-found error carrying exactly the requested path. -/
theorem lookup_not_found (items : List TarItem) (cid : Nat) (path : String)
    (hok : items.all TarItem.isDecodeOk = true)
    (hmiss : items.all (fun i => !(TarItem.nameIs path i)) = true) :
    ReaderFromTar ⟨items, cid⟩ path = .error (.fileNotFound path)
    ∧ MetadataFromTar ⟨items, cid⟩ path = .error (.fileNotFound path) := by
  constructor
  · rw [ReaderFromTar, IterateTar]
    have h := iterateTarAux_lookup_skip (fun entry => (⟨entry.content, cid⟩ : tarFile)) path
      items [] 0 none hok hmiss
    rw [List.append_nil] at h
    rw [h, iterateTarAux]
  · rw [MetadataFromTar, IterateTar]
    have h := iterateTarAux_lookup_skip
      (fun entry => NewMetadata entry.header
        (if entry.header.size > 0 then some (.originalStream cid) else none)) path
      items [] 0 none hok hmiss
    rw [List.append_nil] at h
    rw [h, iterateTarAux]

theorem lookup_not_found_witness :
    ReaderFromTar ⟨[.entry (some ⟨"x", '0', 0, 0⟩) []], 5⟩ "zzz"
        = .error (.fileNotFound "zzz")
    ∧ MetadataFromTar ⟨[.entry (some ⟨"x", '0', 0, 0⟩) []], 5⟩ "zzz"
        = .error (.fileNotFound "zzz") :=
  lookup_not_found [.entry (some ⟨"x", '0', 0, 0⟩) []] 5 "zzz" (by decide) (by decide)

/-- Claim C4: when the target path occurs at one entry and at no earlier
entry, the content lookup returns the composed reader serving that entry's
payload whose closer is the original stream's closer, the metadata lookup
returns a record built from that entry's header, and both results are
unchanged when everything after the matching entry is removed from the
stream — the iteration halts at the match, so later entries are never
visited. -/
theorem lookup_found_halts (pre post : List TarItem) (cid : Nat) (path : String)
    (hdr : TarHeader) (content : List Nat)
    (hok : pre.all TarItem.isDecodeOk = true)
    (hmiss : pre.all (fun i => !(TarItem.nameIs path i)) = true)
    (hname : hdr.name = path) :
    ReaderFromTar ⟨pre ++ .entry (some hdr) content :: post, cid⟩ path = .ok ⟨content, cid⟩
    ∧ MetadataFromTar ⟨pre ++ .entry (some hdr) content :: post, cid⟩ path
        = .ok (NewMetadata hdr (if hdr.size > 0 then some (.originalStream cid) else none))
    ∧ ReaderFromTar ⟨pre ++ .entry (some hdr) content :: post, cid⟩ path
        = ReaderFromTar ⟨pre ++ [.entry (some hdr) content], cid⟩ path
    ∧ MetadataFromTar ⟨pre ++ .entry (some hdr) content :: post, cid⟩ path
        = MetadataFromTar ⟨pre ++ [.entry (some hdr) content], cid⟩ path := by
  refine ⟨readerFromTar_found pre post cid path hdr content hok hmiss hname,
    metadataFromTar_found pre post cid path hdr content hok hmiss hname, ?_, ?_⟩
  · rw [readerFromTar_found pre post cid path hdr content hok hmiss hname,
      readerFromTar_found pre [] cid path hdr content hok hmiss hname]
  · rw [metadataFromTar_found pre post cid path hdr content hok hmiss hname,
      metadataFromTar_found pre [] cid path hdr content hok hmiss hname]

theorem lookup_found_halts_witness :
    ReaderFromTar ⟨[.entry (some ⟨"a", '0', 1, 0⟩) [9],
        .entry (some ⟨"b", '0', 2, 420⟩) [1, 2],
        .entry (some ⟨"c", '0', 3, 0⟩) [7, 7, 7]], 11⟩ "b" = .ok ⟨[1, 2], 11⟩
    ∧ MetadataFromTar ⟨[.entry (some ⟨"a", '0', 1, 0⟩) [9],
        .entry (some ⟨"b", '0', 2, 420⟩) [1, 2],
        .entry (some ⟨"c", '0', 3, 0⟩) [7, 7, 7]], 11⟩ "b"
        = .ok (NewMetadata ⟨"b", '0', 2, 420⟩
            (if (2 : Int) > 0 then some (.originalStream 11) else none))
    ∧ ReaderFromTar ⟨[.entry (some ⟨"a", '0', 1, 0⟩) [9],
        .entry (some ⟨"b", '0', 2, 420⟩) [1, 2],
        .entry (some ⟨"c", '0', 3, 0⟩) [7, 7, 7]], 11⟩ "b"
        = ReaderFromTar ⟨[.entry (some ⟨"a", '0', 1, 0⟩) [9],
            .entry (some ⟨"b", '0', 2, 420⟩) [1, 2]], 11⟩ "b"
    ∧ MetadataFromTar ⟨[.entry (some ⟨"a", '0', 1, 0⟩) [9],
        .entry (some ⟨"b", '0', 2, 420⟩) [1, 2],
        .entry (some ⟨"c", '0', 3, 0⟩) [7, 7, 7]], 11⟩ "b"
        = MetadataFromTar ⟨[.entry (some ⟨"a", '0', 1, 0⟩) [9],
            .entry (some ⟨"b", '0', 2, 420⟩) [1, 2]], 11⟩ "b" :=
  lookup_found_halts [.entry (some ⟨"a", '0', 1, 0⟩) [9]]
    [.entry (some ⟨"c", '0', 3, 0⟩) [7, 7, 7]] 11 "b" ⟨"b", '0', 2, 420⟩ [1, 2]
    (by decide) (by decide) (by decide)

/-- Claim C9: on the matching entry, the metadata constructor receives a
content reader exactly when the header's declared size is positive: a
positive-size entry yields a record built with a reader, a zero-or-negative
size entry yields a record built with no reader. -/
theorem metadata_content_iff_size (pre post : List TarItem) (cid : Nat) (path : String)
    (hdr : TarHeader) (content : List Nat)
    (hok : pre.all TarItem.isDecodeOk = true)
    (hmiss : pre.all (fun i => !(TarItem.nameIs path i)) = true)
    (hname : hdr.name = path) :
    (hdr.size > 0 →
      MetadataFromTar ⟨pre ++ .entry (some hdr) content :: post, cid⟩ path
        = .ok (NewMetadata hdr (some (.originalStream cid))))
    ∧ (¬ hdr.size > 0 →
      MetadataFromTar ⟨pre ++ .entry (some hdr) content :: post, cid⟩ path
        = .ok (NewMetadata hdr none)) := by
  constructor <;> intro hsz <;>
    rw [metadataFromTar_found pre post cid path hdr content hok hmiss hname] <;>
    simp [hsz]

theorem metadata_content_iff_size_witness :
    ((2 : Int) > 0 →
      MetadataFromTar ⟨[.entry (some ⟨"p", '0', 2, 0⟩) [3, 4]], 9⟩ "p"
        = .ok (NewMetadata ⟨"p", '0', 2, 0⟩ (some (.originalStream 9))))
    ∧ (¬ (2 : Int) > 0 →
      MetadataFromTar ⟨[.entry (some ⟨"p", '0', 2, 0⟩) [3, 4]], 9⟩ "p"
        = .ok (NewMetadata ⟨"p", '0', 2, 0⟩ none)) :=
  metadata_content_iff_size [] [] 9 "p" ⟨"p", '0', 2, 0⟩ [3, 4]
    (by decide) (by decide) (by decide)

/-- Claim C10: on a matching entry of positive declared size, the reader
handed to the metadata constructor is the raw stream argument of the lookup
(the original ReadCloser), and is in particular never the decoder's
entry-positioned reader. -/
theorem metadata_reader_is_raw_stream (pre post : List TarItem) (cid : Nat) (path : String)
    (hdr : TarHeader) (content : List Nat)
    (hok : pre.all TarItem.isDecodeOk = true)
    (hmiss : pre.all (fun i => !(TarItem.nameIs path i)) = true)
    (hname : hdr.name = path) (hsz : hdr.size > 0) :
    MetadataFromTar ⟨pre ++ .entry (some hdr) content :: post, cid⟩ path
      = .ok (NewMetadata hdr (some (.originalStream cid)))
    ∧ ∀ c : List Nat,
      MetadataFromTar ⟨pre ++ .entry (some hdr) content :: post, cid⟩ path
        ≠ .ok (NewMetadata hdr (some (.entryReader c))) := by
  have h := metadataFromTar_found pre post cid path hdr content hok hmiss hname
  rw [if_pos hsz] at h
  refine ⟨h, fun c hc => ?_⟩
  rw [h] at hc
  simp [NewMetadata] at hc

theorem metadata_reader_is_raw_stream_witness :
    MetadataFromTar ⟨[.entry (some ⟨"p", '0', 2, 0⟩) [3, 4]], 9⟩ "p"
      = .ok (NewMetadata ⟨"p", '0', 2, 0⟩ (some (.originalStream 9)))
    ∧ ∀ c : List Nat,
      MetadataFromTar ⟨[.entry (some ⟨"p", '0', 2, 0⟩) [3, 4]], 9⟩ "p"
        ≠ .ok (NewMetadata ⟨"p", '0', 2, 0⟩ (some (.entryReader c))) :=
  metadata_reader_is_raw_stream [] [] 9 "p" ⟨"p", '0', 2, 0⟩ [3, 4]
    (by decide) (by decide) (by decide) (by decide)

theorem iterateTar_visitor_outcome_witness :
    iterateTarAux (fun (s : Unit) _ => (s, some (GoErr.other 7))) 0 ()
        [.entry (some ⟨"a", '0', 0, 0⟩) [], .entry (some ⟨"b", '0', 0, 0⟩) []]
      = ((), some (.visitWrap "a" (.other 7)))
    ∧ iterateTarAux (fun (s : Unit) _ => (s, some GoErr.tarStopIteration)) 0 ()
        [.entry (some ⟨"a", '0', 0, 0⟩) [], .entry (some ⟨"b", '0', 0, 0⟩) []]
      = ((), none) :=
  ⟨(iterateTar_visitor_outcome (fun s _ => (s, some (GoErr.other 7))) 0 () ()
      ⟨"a", '0', 0, 0⟩ [] [.entry (some ⟨"b", '0', 0, 0⟩) []] (GoErr.other 7) rfl).2
      (by decide),
   (iterateTar_visitor_outcome (fun s _ => (s, some GoErr.tarStopIteration)) 0 () ()
      ⟨"a", '0', 0, 0⟩ [] [.entry (some ⟨"b", '0', 0, 0⟩) []] GoErr.tarStopIteration rfl).1
      (by decide)⟩

/-! ### Extraction-visitor theorems -/

/-- Claim C1: whenever the join of the destination and the entry's name
does not begin with the destination followed by the path separator, and
the entry's name is not exactly `"."`, the extraction visitor returns the
path-traversal error naming that entry and leaves the filesystem
untouched. -/
theorem visit_traversal_rejected (dst : String) (limit : Int) (fs : Fs)
    (entry : TarFileEntry)
    (hout : goStrHasPre (goJoin dst entry.header.name)
      (dst ++ osPathSeparator.toString) = false)
    (hdot : entry.header.name ≠ ".") :
    tarVisitor.visit ⟨dst⟩ limit fs entry
      = (fs, some (.pathTraversal entry.header.name)) := by
  simp only [tarVisitor.visit]
  rw [if_pos ⟨by simp [hout], hdot⟩]

theorem visit_traversal_rejected_witness :
    goStrHasPre (goJoin "/out" "../escape") ("/out" ++ osPathSeparator.toString) = false
    ∧ "../escape" ≠ "."
    ∧ tarVisitor.visit ⟨"/out"⟩ 4 [] ⟨0, ⟨"../escape", '0', 0, 420⟩, []⟩
        = ([], some (.pathTraversal "../escape")) :=
  ⟨by decide, by decide,
    visit_traversal_rejected "/out" 4 [] ⟨0, ⟨"../escape", '0', 0, 420⟩, []⟩
      (by decide) (by decide)⟩

/-- Claim C2 counterexample: a regular-file entry whose content length is
at (equal to) the configured read limit is "at or under the limit", yet
the extraction visitor fails with the bomb-limit error instead of
succeeding — the bounded copy counts `numBytes = limit` and the check
fires on `numBytes >= limit`. -/
theorem visit_reg_at_limit_counterexample :
    (([1, 2] : List Nat).length : Int) ≤ 2
    ∧ tarVisitor.visit ⟨"/out"⟩ 2 [] ⟨0, ⟨"f", tarTypeReg, 2, 420⟩, [1, 2]⟩
        = ([("/out/f", .file [1, 2] 420), ("/out/f", .file [] 420)],
           some (.readLimit 2 2)) := by
  constructor
  · decide
  · decide

/-- Claim C2 (amended): for a regular-file entry passing containment whose
target is fresh, extraction succeeds exactly when the content length is
strictly below the configured limit — the created file then holds the
entry's full content, so its byte count equals the content length — and
fails with the bomb-limit error reporting `limit` copied bytes against the
limit whenever the content length is at or above the limit, the partially
written file (the first `limit` bytes) left in place. -/
theorem visit_reg_read_limit (dst name : String) (seq sz mode limit : Int)
    (fs : Fs) (content : List Nat)
    (hpos : 0 < limit)
    (hin : goStrHasPre (goJoin dst name) (dst ++ osPathSeparator.toString) = true)
    (hfresh : fsLookup fs (goJoin dst name) = none) :
    ((content.length : Int) < limit →
      tarVisitor.visit ⟨dst⟩ limit fs ⟨seq, ⟨name, tarTypeReg, sz, mode⟩, content⟩
        = ((goJoin dst name, .file content mode)
            :: (goJoin dst name, .file [] mode) :: fs, none))
    ∧ ((content.length : Int) ≥ limit →
      tarVisitor.visit ⟨dst⟩ limit fs ⟨seq, ⟨name, tarTypeReg, sz, mode⟩, content⟩
        = ((goJoin dst name, .file (content.take limit.toNat) mode)
            :: (goJoin dst name, .file [] mode) :: fs,
           some (.readLimit limit limit))) := by
  have hvisit : tarVisitor.visit ⟨dst⟩ limit fs ⟨seq, ⟨name, tarTypeReg, sz, mode⟩, content⟩
      = tarVisitorCopy limit ((goJoin dst name, .file [] mode) :: fs)
          (goJoin dst name) content [] mode := by
    simp only [tarVisitor.visit]
    rw [if_neg (by simp [hin])]
    rw [if_neg (by decide : ¬ (tarTypeReg = tarTypeSymlink ∨ tarTypeReg = tarTypeLink))]
    rw [if_neg (by decide : ¬ tarTypeReg = tarTypeDir)]
    simp only [if_true]
    simp only [hfresh]
  constructor
  · intro hlen
    have htake : content.take limit.toNat = content :=
      List.take_of_length_le (by omega)
    rw [hvisit]
    simp only [tarVisitorCopy, htake]
    rw [if_neg (by omega)]
    simp
  · intro hlen
    have hlen2 : (((content.take limit.toNat).length : Nat) : Int) = limit := by
      rw [List.length_take]
      omega
    rw [hvisit]
    simp only [tarVisitorCopy]
    rw [if_pos (by omega)]
    rw [hlen2]
    simp

theorem visit_reg_read_limit_witness :
    (0 : Int) < 4
    ∧ goStrHasPre (goJoin "/out" "a") ("/out" ++ osPathSeparator.toString) = true
    ∧ fsLookup [] (goJoin "/out" "a") = none
    ∧ tarVisitor.visit ⟨"/out"⟩ 4 [] ⟨0, ⟨"a", tarTypeReg, 2, 420⟩, [7, 8]⟩
        = ([("/out/a", .file [7, 8] 420), ("/out/a", .file [] 420)], none) :=
  ⟨by decide, by decide, by decide,
    (visit_reg_read_limit "/out" "a" 0 2 420 4 [] [7, 8]
      (by decide) (by decide) (by decide)).1 (by decide)⟩

/-- Claim C7 counterexample: a symlink entry whose name escapes the
destination is rejected by the containment check with a path-traversal
error, so the visitor does not return continue for every link entry. -/
theorem visit_link_traversal_counterexample :
    tarVisitor.visit ⟨"/out"⟩ 4 [] ⟨0, ⟨"../evil", tarTypeSymlink, 0, 0⟩, []⟩
      = ([], some (.pathTraversal "../evil")) := by
  decide

/-- Claim C7 (amended): a symlink or hard-link entry never changes the
filesystem, whatever its name or link target; and when its name passes the
containment check (the joined target stays under the destination, or the
name is exactly `"."`) the visitor returns continue, so extraction
proceeds past it without error.  A link entry failing containment instead
returns the traversal error — still without any filesystem operation. -/
theorem visit_link_skipped (dst : String) (limit : Int) (fs : Fs) (entry : TarFileEntry)
    (hflag : entry.header.typeflag = tarTypeSymlink
      ∨ entry.header.typeflag = tarTypeLink) :
    (tarVisitor.visit ⟨dst⟩ limit fs entry).1 = fs
    ∧ (goStrHasPre (goJoin dst entry.header.name) (dst ++ osPathSeparator.toString) = true
        ∨ entry.header.name = "." →
      tarVisitor.visit ⟨dst⟩ limit fs entry = (fs, none)) := by
  by_cases hc : ¬ (goStrHasPre (goJoin dst entry.header.name)
      (dst ++ osPathSeparator.toString) = true) ∧ entry.header.name ≠ "."
  · constructor
    · simp only [tarVisitor.visit]
      rw [if_pos hc]
    · intro hin
      rcases hin with hin | hin
      · exact absurd hin hc.1
      · exact absurd hin hc.2
  · constructor
    · simp only [tarVisitor.visit]
      rw [if_neg hc, if_pos hflag]
    · intro _
      simp only [tarVisitor.visit]
      rw [if_neg hc, if_pos hflag]

theorem visit_link_skipped_witness :
    (tarVisitor.visit ⟨"/out"⟩ 4 [] ⟨0, ⟨"lnk", tarTypeSymlink, 0, 0⟩, []⟩).1 = []
    ∧ tarVisitor.visit ⟨"/out"⟩ 4 [] ⟨0, ⟨"lnk", tarTypeSymlink, 0, 0⟩, []⟩ = ([], none) :=
  have h := visit_link_skipped "/out" 4 [] ⟨0, ⟨"lnk", tarTypeSymlink, 0, 0⟩, []⟩
    (Or.inl rfl)
  ⟨h.1, h.2 (Or.inl (by decide))⟩

/-- Claim C8 counterexample: an entry named exactly `"."` whose type flag
is regular-file passes the containment check but reaches the regular-file
arm, which opens (creates) a file node at the destination root itself —
so such an entry does create a filesystem node. -/
theorem visit_dot_reg_counterexample :
    fsLookup ([] : Fs) "/out" = none
    ∧ fsLookup (tarVisitor.visit ⟨"/out"⟩ 4 [] ⟨0, ⟨".", tarTypeReg, 0, 420⟩, []⟩).1 "/out"
        = some (.file [] 420) := by
  constructor
  · decide
  · decide

/-- Claim C8 (amended): an entry named exactly `"."` whose type flag is
not regular-file — directory, symlink, hard link, or anything else —
returns success and leaves the filesystem unchanged (no node is created).
A regular-file entry named `"."` instead reaches the file-writing arm. -/
theorem visit_dot_no_node (dst : String) (limit : Int) (fs : Fs) (entry : TarFileEntry)
    (hname : entry.header.name = ".")
    (hflag : entry.header.typeflag ≠ tarTypeReg) :
    tarVisitor.visit ⟨dst⟩ limit fs entry = (fs, none) := by
  simp only [tarVisitor.visit]
  rw [if_neg (fun h => h.2 hname)]
  by_cases h1 : entry.header.typeflag = tarTypeSymlink ∨ entry.header.typeflag = tarTypeLink
  · rw [if_pos h1]
  · rw [if_neg h1]
    by_cases h2 : entry.header.typeflag = tarTypeDir
    · rw [if_pos h2, if_pos hname]
    · rw [if_neg h2, if_neg hflag]

theorem visit_dot_no_node_witness :
    ((⟨0, ⟨".", tarTypeDir, 0, 420⟩, []⟩ : TarFileEntry).header.name = ".")
    ∧ tarVisitor.visit ⟨"/out"⟩ 4 [] ⟨0, ⟨".", tarTypeDir, 0, 420⟩, []⟩ = ([], none) :=
  ⟨by decide,
    visit_dot_no_node "/out" 4 [] ⟨0, ⟨".", tarTypeDir, 0, 420⟩, []⟩
      (by decide) (by decide)⟩
